import Mathlib

/-!
Verification of the readium reading-mode proxy (src/main.go).

The development shallowly embeds the two algorithmic parts of the program:

* `extract` (src/main.go, `func extract`): a single forward pass over a
  stream of markup tokens, producing the filtered article bytes.  The
  tokenizer (`golang.org/x/net/html`) is an external collaborator; its
  interface is embedded as a list of tokens.  The `ErrorToken` case of the
  Go loop covers two situations that the token list separates: reaching the
  end of the input (Go's `io.EOF` sentinel, embedded as the end of the list,
  a normal termination with no error) and a genuine mid-stream failure
  (embedded as an explicit `errTok` carrying the failure description).
* `readium.ServeHTTP` (the bounded result cache): embedded as a pure
  function from the current cache, the request path and the (externally
  determined) fetch outcome to a response and an updated cache.  The Go
  `map[string]*page` is embedded as an association list; the in-place
  `p.hits++` through the shared pointer is embedded as `cacheBump`, which
  rewrites the entry in place and hence keeps the size unchanged.

Output is accumulated in a `String` (the Go `bytes.Buffer`); the discard
stack is a `List String` whose HEAD is the most recently pushed name (the
END of the Go slice `discardStack`).  Diagnostic warnings are written by the
Go code to an external logger and are not part of the extraction state,
which per the design consists of `inArticle`, the discard stack and the
output buffer.
-/

/-- One markup token, as delivered by the external tokenizer.
`errTok` is a mid-stream tokenizer failure (any `ErrorToken` whose cause is
not the end-of-stream sentinel); normal end of stream is the end of the
token list. -/
inductive Token where
  | text (s : String)
  | startTag (name : String) (attrs : List (String × String))
  | endTag (name : String)
  | selfClosingTag (name : String) (attrs : List (String × String))
  | errTok (msg : String)
deriving DecidableEq, Repr

/-- Whether a token is a mid-stream tokenizer failure. -/
def Token.isErr : Token → Bool
  | .errTok _ => true
  | _ => false

/-- The content tags kept inside the article: the case list of the
`StartTagToken`/`EndTagToken` switches in `extract` (src/main.go:135,158). -/
def contentTags : List String :=
  ["title", "p", "a", "em", "strong", "div", "span", "section",
   "h1", "h2", "h3", "blockquote", "figure", "figcaption", "pre", "code"]

/-- The attribute names preserved on kept tags: the `allowedTags` map of
src/main.go:179 (its keys are attribute names). -/
def allowedTags : List String := ["src", "title", "role", "href"]

/-- The attribute bytes built by the `z.TagAttr()` loops
(src/main.go:117-125 and 138-146): each allow-listed attribute contributes
`name="value"`, concatenated in source order with no separator; all other
attributes contribute nothing. -/
def renderAttrs : List (String × String) → String
  | [] => ""
  | (k, v) :: rest =>
      if k ∈ allowedTags then k ++ "=\"" ++ v ++ "\"" ++ renderAttrs rest
      else renderAttrs rest

/-- The mutable state of one `extract` pass: `inArticle`, the discard stack
(head of the list = end of the Go slice = top of the stack) and the output
buffer. -/
structure ExtractState where
  inArticle : Bool
  discardStack : List String
  out : String
deriving DecidableEq, Repr

/-- One iteration of the token loop of `extract` (src/main.go:102-175) on a
non-error token.  (`errTok` terminates the loop in `extractLoop` and is
mapped to the identity here.) -/
def step (s : ExtractState) : Token → ExtractState
  | .text txt =>
      if s.inArticle = true ∧ s.discardStack = [] then
        { s with out := s.out ++ txt }
      else s
  | .selfClosingTag tag attrs =>
      if tag = "br" ∨ tag = "img" then
        if s.inArticle = true ∧ s.discardStack = [] then
          { s with out := s.out ++ "<" ++ tag ++ " " ++ renderAttrs attrs ++ ">\n" }
        else s
      else s
  | .startTag tag attrs =>
      if tag = "article" then { s with inArticle := true }
      else if tag ∈ contentTags then
        if s.inArticle = true ∧ s.discardStack = [] then
          { s with out := s.out ++ "<" ++ tag ++ " " ++ renderAttrs attrs ++ ">\n" }
        else s
      else if s.inArticle = true then
        { s with discardStack := tag :: s.discardStack }
      else s
  | .endTag tag =>
      if tag = "article" then { s with inArticle := false }
      else if tag ∈ contentTags then
        if s.inArticle = true ∧ s.discardStack = [] then
          { s with out := s.out ++ "</" ++ tag ++ ">\n" }
        else s
      else if s.inArticle = true then
        match s.discardStack with
        | [] => s
        | top :: rest => if top = tag then { s with discardStack := rest } else s
      else s
  | .errTok _ => s

/-- The token loop of `extract`: runs `step` over the stream, stopping at a
mid-stream failure (returning its description) or at end of stream
(returning no error). -/
def extractLoop (s : ExtractState) : List Token → ExtractState × Option String
  | [] => (s, none)
  | .errTok e :: _ => (s, some e)
  | t :: ts => extractLoop (step s t) ts

/-- The initial state of an `extract` pass (src/main.go:93-98). -/
def initState : ExtractState := ⟨false, [], ""⟩

/-- `extract` (src/main.go:92-177): the accumulated output bytes together
with the optional mid-stream failure. -/
def extract (ts : List Token) : String × Option String :=
  let r := extractLoop initState ts
  (r.1.out, r.2)

/-- Running `step` over a whole token list (no early stop); coincides with
`extractLoop` on error-free streams. -/
def processTokens (s : ExtractState) (ts : List Token) : ExtractState :=
  ts.foldl step s

/-- Well-formed (balanced) token forests: text and self-closing tokens are
leaves, and every start tag is matched by the corresponding end tag around a
balanced inner forest. -/
inductive BalancedStream : List Token → Prop where
  | nil : BalancedStream []
  | text (x : String) {ts : List Token} :
      BalancedStream ts → BalancedStream (Token.text x :: ts)
  | self (n : String) (a : List (String × String)) {ts : List Token} :
      BalancedStream ts → BalancedStream (Token.selfClosingTag n a :: ts)
  | elem (n : String) (a : List (String × String)) {inner rest : List Token} :
      BalancedStream inner → BalancedStream rest →
      BalancedStream (Token.startTag n a :: (inner ++ Token.endTag n :: rest))

/-- One cache entry: the `page` struct of src/main.go:34-38. -/
structure Page where
  hits : Nat
  code : Nat
  content : String
deriving DecidableEq, Repr

/-- The `map[string]*page` cache, embedded as an association list (the Go
map has unique keys; `serve` only ever inserts a key after looking it up
and finding it absent, so uniqueness is preserved). -/
abbrev Cache := List (String × Page)

/-- Map lookup `rd.cache[r.URL.Path]` (src/main.go:49). -/
def cacheGet : Cache → String → Option Page
  | [], _ => none
  | (k, p) :: rest, path => if k = path then some p else cacheGet rest path

/-- The in-place `p.hits++` (src/main.go:84) through the pointer stored in
the map: the entry for `path` is rewritten with its hit counter raised; all
other entries, and the shape of the map, are untouched. -/
def cacheBump : Cache → String → Cache
  | [], _ => []
  | (k, p) :: rest, path =>
      if k = path then (k, { p with hits := p.hits + 1 }) :: cacheBump rest path
      else (k, p) :: cacheBump rest path

/-- The fixed HTML preamble written before the extracted bytes
(src/main.go:59-66); `\x7b`/`\x7d` are the literal CSS braces. -/
def preamble : String :=
  "<!doctype html><body>\n<meta name=\"viewport\" content=\"width=device-width, initial-scale=1\">\n<style type=\"text/css\">\nbody\x7b margin:40px auto; max-width:800px; line-height:1.6; font-size:18px; padding:0 10px; \x7d\nh1,h2,h3 \x7b line-height:1.2 \x7d\nimg \x7b max-height: 400px; max-width: 400px; \x7d\n</style>\n\t\t"

/-- What one request observes: either the short-path placeholder document,
a propagated fetch failure (`http.Error`, status 500 with the failure's
description), or a normal response with the `x-cache-hits` and
`x-cache-size` header values and the served body. -/
inductive ServeOutcome where
  | placeholder
  | fetchError (status : Nat) (msg : String)
  | ok (status hits size : Nat) (body : String)
deriving DecidableEq, Repr

/-- `readium.ServeHTTP` (src/main.go:40-90) for one request, embedded over
the external collaborators: `fetch` is the outcome of
`rd.client.Get("https://medium.com" + path)` — a failure message, or the
response status code together with the token stream of the response body.
Returns the response and the cache left behind. -/
def serve (c : Cache) (path : String)
    (fetch : Except String (Nat × List Token)) : ServeOutcome × Cache :=
  if path.length < 2 then (.placeholder, c)
  else
    match cacheGet c path with
    | some p =>
        let c' := cacheBump c path
        (.ok p.code (p.hits + 1) c'.length p.content, c')
    | none =>
        match fetch with
        | .error e => (.fetchError 500 e, c)
        | .ok (code, toks) =>
            let content := preamble ++ (extract toks).1
            let c₁ : Cache := if 200 < c.length then [] else c
            let c₂ : Cache := (path, ⟨0, code, content⟩) :: c₁
            let c₃ := cacheBump c₂ path
            (.ok code 1 c₃.length content, c₃)

/-- `n` consecutive requests for the same path (the fetch collaborator's
outcome is only consulted on a miss). -/
def serveN : Nat → Cache → String → Except String (Nat × List Token) →
    List ServeOutcome × Cache
  | 0, c, _, _ => ([], c)
  | n + 1, c, path, f =>
      let r := serve c path f
      let rs := serveN n r.2 path f
      (r.1 :: rs.1, rs.2)

/-- A 201-entry cache, used to exercise the eviction bound on concrete data. -/
def bigCache : Cache := List.replicate 201 ("k", ⟨0, 0, ""⟩)

theorem processTokens_nil (s : ExtractState) : processTokens s [] = s := rfl

theorem processTokens_cons (s : ExtractState) (t : Token) (ts : List Token) :
    processTokens s (t :: ts) = processTokens (step s t) ts := rfl

theorem processTokens_append (s : ExtractState) (l₁ l₂ : List Token) :
    processTokens s (l₁ ++ l₂) = processTokens (processTokens s l₁) l₂ := by
  simp [processTokens]

theorem step_text_stuck (s : ExtractState) (x : String) (h : s.discardStack ≠ []) :
    step s (.text x) = s := by
  simp only [step]
  rw [if_neg]
  rintro ⟨-, h2⟩
  exact h h2

theorem step_self_stuck (s : ExtractState) (n : String) (a : List (String × String))
    (h : s.discardStack ≠ []) : step s (.selfClosingTag n a) = s := by
  simp only [step]
  split
  · rw [if_neg]
    rintro ⟨-, h2⟩
    exact h h2
  · rfl

theorem step_start_article (s : ExtractState) (a : List (String × String)) :
    step s (.startTag "article" a) = { s with inArticle := true } := rfl

theorem step_end_article (s : ExtractState) :
    step s (.endTag "article") = { s with inArticle := false } := rfl

theorem contentTags_ne_article {n : String} (hc : n ∈ contentTags) : n ≠ "article" := by
  rintro rfl
  revert hc
  decide

theorem step_start_content_stuck (s : ExtractState) (n : String)
    (a : List (String × String)) (hc : n ∈ contentTags) (h : s.discardStack ≠ []) :
    step s (.startTag n a) = s := by
  have hcond : ¬ (s.inArticle = true ∧ s.discardStack = []) := by
    rintro ⟨-, h2⟩
    exact h h2
  simp only [step]
  rw [if_neg (contentTags_ne_article hc), if_pos hc, if_neg hcond]

theorem step_start_unknown (s : ExtractState) (n : String) (a : List (String × String))
    (hc : n ∉ contentTags) (hna : n ≠ "article") :
    step s (.startTag n a) =
      if s.inArticle = true then { s with discardStack := n :: s.discardStack } else s := by
  simp only [step]
  rw [if_neg hna, if_neg hc]

theorem step_end_content_stuck (s : ExtractState) (n : String)
    (hc : n ∈ contentTags) (h : s.discardStack ≠ []) :
    step s (.endTag n) = s := by
  have hcond : ¬ (s.inArticle = true ∧ s.discardStack = []) := by
    rintro ⟨-, h2⟩
    exact h h2
  simp only [step]
  rw [if_neg (contentTags_ne_article hc), if_pos hc, if_neg hcond]

theorem step_end_unknown (s : ExtractState) (n : String)
    (hc : n ∉ contentTags) (hna : n ≠ "article") :
    step s (.endTag n) =
      if s.inArticle = true then
        match s.discardStack with
        | [] => s
        | top :: rest => if top = n then { s with discardStack := rest } else s
      else s := by
  simp only [step]
  rw [if_neg hna, if_neg hc]

theorem step_out_stuck (s : ExtractState) (t : Token) (h : s.discardStack ≠ []) :
    (step s t).out = s.out := by
  cases t with
  | text x => rw [step_text_stuck s x h]
  | selfClosingTag n a => rw [step_self_stuck s n a h]
  | errTok e => rfl
  | startTag n a =>
      by_cases hna : n = "article"
      · subst hna
        rw [step_start_article]
      · by_cases hcn : n ∈ contentTags
        · rw [step_start_content_stuck s n a hcn h]
        · rw [step_start_unknown s n a hcn hna]
          split <;> rfl
  | endTag n =>
      by_cases hna : n = "article"
      · subst hna
        rw [step_end_article]
      · by_cases hcn : n ∈ contentTags
        · rw [step_end_content_stuck s n hcn h]
        · rw [step_end_unknown s n hcn hna]
          repeat' split
          all_goals rfl

theorem step_inArticle_text (s : ExtractState) (x : String) :
    (step s (.text x)).inArticle = s.inArticle := by
  simp only [step]
  split <;> rfl

theorem step_inArticle_self (s : ExtractState) (n : String) (a : List (String × String)) :
    (step s (.selfClosingTag n a)).inArticle = s.inArticle := by
  simp only [step]
  repeat' split
  all_goals rfl

theorem step_inArticle_start_ne (s : ExtractState) (n : String)
    (a : List (String × String)) (hna : n ≠ "article") :
    (step s (.startTag n a)).inArticle = s.inArticle := by
  simp only [step]
  rw [if_neg hna]
  repeat' split
  all_goals rfl

theorem step_inArticle_end_ne (s : ExtractState) (n : String) (hna : n ≠ "article") :
    (step s (.endTag n)).inArticle = s.inArticle := by
  simp only [step]
  rw [if_neg hna]
  repeat' split
  all_goals rfl

theorem step_end_unknown_empty (s : ExtractState) (n : String)
    (hc : n ∉ contentTags) (hna : n ≠ "article") (hin : s.inArticle = true)
    (hnil : s.discardStack = []) : step s (.endTag n) = s := by
  rw [step_end_unknown s n hc hna, if_pos hin, hnil]

theorem step_end_unknown_pop (s : ExtractState) (n : String)
    (hc : n ∉ contentTags) (hna : n ≠ "article") (hin : s.inArticle = true)
    (top : String) (rest₀ : List String) (hcons : s.discardStack = top :: rest₀)
    (he : top = n) : step s (.endTag n) = { s with discardStack := rest₀ } := by
  rw [step_end_unknown s n hc hna, if_pos hin, hcons]
  show (if top = n then { s with discardStack := rest₀ } else s) = _
  rw [if_pos he]

theorem step_end_unknown_skip (s : ExtractState) (n : String)
    (hc : n ∉ contentTags) (hna : n ≠ "article") (hin : s.inArticle = true)
    (top : String) (rest₀ : List String) (hcons : s.discardStack = top :: rest₀)
    (he : top ≠ n) : step s (.endTag n) = s := by
  rw [step_end_unknown s n hc hna, if_pos hin, hcons]
  show (if top = n then { s with discardStack := rest₀ } else s) = _
  rw [if_neg he]

theorem step_end_unknown_noart (s : ExtractState) (n : String)
    (hc : n ∉ contentTags) (hna : n ≠ "article") (hin : s.inArticle = false) :
    step s (.endTag n) = s := by
  rw [step_end_unknown s n hc hna, if_neg]
  rw [hin]
  exact Bool.false_ne_true

theorem inArticle_false_of_balanced {ts : List Token} (hb : BalancedStream ts) :
    ∀ s : ExtractState, s.inArticle = false → (processTokens s ts).inArticle = false := by
  induction hb with
  | nil =>
      intro s h
      exact h
  | text x hb ih =>
      intro s h
      rw [processTokens_cons]
      exact ih _ (by rw [step_inArticle_text]; exact h)
  | self n a hb ih =>
      intro s h
      rw [processTokens_cons]
      exact ih _ (by rw [step_inArticle_self]; exact h)
  | elem n a hbi hbr ihi ihr =>
      intro s h
      rw [processTokens_cons, processTokens_append, processTokens_cons]
      by_cases hna : n = "article"
      · subst hna
        apply ihr
        rw [step_end_article]
      · apply ihr
        rw [step_inArticle_end_ne _ _ hna]
        apply ihi
        rw [step_inArticle_start_ne _ _ _ hna]
        exact h

theorem processTokens_suppressed {ts : List Token} (hb : BalancedStream ts) :
    ∀ s : ExtractState, s.discardStack ≠ [] →
      (processTokens s ts).out = s.out ∧
      s.discardStack <:+ (processTokens s ts).discardStack := by
  induction hb with
  | nil =>
      intro s h
      exact ⟨rfl, List.suffix_refl _⟩
  | text x hb ih =>
      intro s h
      rw [processTokens_cons, step_text_stuck s x h]
      exact ih s h
  | self n a hb ih =>
      intro s h
      rw [processTokens_cons, step_self_stuck s n a h]
      exact ih s h
  | @elem n a inner rest hbi hbr ihi ihr =>
      intro s h
      rw [processTokens_cons, processTokens_append, processTokens_cons]
      by_cases hna : n = "article"
      · subst hna
        rw [step_start_article]
        obtain ⟨ho₁, hsfx₁⟩ := ihi { s with inArticle := true } h
        set s₁ := processTokens { s with inArticle := true } inner with hs₁
        have hne₁ : s₁.discardStack ≠ [] := fun hnil =>
          h (List.suffix_nil.mp (hnil ▸ (hsfx₁ : s.discardStack <:+ s₁.discardStack)))
        rw [step_end_article]
        obtain ⟨ho₂, hsfx₂⟩ := ihr { s₁ with inArticle := false } hne₁
        exact ⟨(ho₂ : _ = s₁.out).trans (ho₁ : s₁.out = s.out),
          (hsfx₁ : s.discardStack <:+ s₁.discardStack).trans
            (hsfx₂ : s₁.discardStack <:+ _)⟩
      · by_cases hcn : n ∈ contentTags
        · rw [step_start_content_stuck s n a hcn h]
          obtain ⟨ho₁, hsfx₁⟩ := ihi s h
          set s₁ := processTokens s inner with hs₁
          have hne₁ : s₁.discardStack ≠ [] := fun hnil =>
            h (List.suffix_nil.mp (hnil ▸ hsfx₁))
          rw [step_end_content_stuck s₁ n hcn hne₁]
          obtain ⟨ho₂, hsfx₂⟩ := ihr s₁ hne₁
          exact ⟨ho₂.trans ho₁, hsfx₁.trans hsfx₂⟩
        · rw [step_start_unknown s n a hcn hna]
          by_cases hin : s.inArticle = true
          · rw [if_pos hin]
            obtain ⟨ho₁, hsfx₁⟩ :=
              ihi { s with discardStack := n :: s.discardStack } (List.cons_ne_nil _ _)
            set s₁ := processTokens { s with discardStack := n :: s.discardStack } inner with hs₁
            have hne₁ : s₁.discardStack ≠ [] := fun hnil =>
              List.cons_ne_nil n s.discardStack
                (List.suffix_nil.mp (hnil ▸ (hsfx₁ : n :: s.discardStack <:+ s₁.discardStack)))
            by_cases hin₁ : s₁.inArticle = true
            · have hext₀ := (hsfx₁ : n :: s.discardStack <:+ s₁.discardStack)
              obtain ⟨ext, hext⟩ := hext₀
              cases ext with
              | nil =>
                  have hcons : s₁.discardStack = n :: s.discardStack := by
                    rw [← hext]
                    simp
                  rw [step_end_unknown_pop s₁ n hcn hna hin₁ n s.discardStack hcons rfl]
                  obtain ⟨ho₂, hsfx₂⟩ := ihr { s₁ with discardStack := s.discardStack } h
                  exact ⟨(ho₂ : _ = s₁.out).trans (ho₁ : s₁.out = s.out),
                    (hsfx₂ : s.discardStack <:+ _)⟩
              | cons e ext =>
                  have hcons : s₁.discardStack = e :: (ext ++ n :: s.discardStack) := by
                    rw [← hext]
                    simp
                  by_cases he : e = n
                  · rw [step_end_unknown_pop s₁ n hcn hna hin₁ e
                        (ext ++ n :: s.discardStack) hcons he]
                    have hne₂ : ext ++ n :: s.discardStack ≠ [] := by simp
                    obtain ⟨ho₂, hsfx₂⟩ :=
                      ihr { s₁ with discardStack := ext ++ n :: s.discardStack } hne₂
                    refine ⟨(ho₂ : _ = s₁.out).trans (ho₁ : s₁.out = s.out), ?_⟩
                    exact ((List.suffix_cons n s.discardStack).trans
                      (List.suffix_append ext (n :: s.discardStack))).trans
                      (hsfx₂ : ext ++ n :: s.discardStack <:+ _)
                  · rw [step_end_unknown_skip s₁ n hcn hna hin₁ e
                        (ext ++ n :: s.discardStack) hcons he]
                    obtain ⟨ho₂, hsfx₂⟩ := ihr s₁ hne₁
                    refine ⟨ho₂.trans (ho₁ : s₁.out = s.out), ?_⟩
                    exact ((List.suffix_cons n s.discardStack).trans
                      (hsfx₁ : n :: s.discardStack <:+ s₁.discardStack)).trans hsfx₂
            · have hfa : s₁.inArticle = false := by simpa using hin₁
              rw [step_end_unknown_noart s₁ n hcn hna hfa]
              obtain ⟨ho₂, hsfx₂⟩ := ihr s₁ hne₁
              exact ⟨ho₂.trans (ho₁ : s₁.out = s.out),
                ((List.suffix_cons n s.discardStack).trans
                  (hsfx₁ : n :: s.discardStack <:+ s₁.discardStack)).trans hsfx₂⟩
          · rw [if_neg hin]
            obtain ⟨ho₁, hsfx₁⟩ := ihi s h
            set s₁ := processTokens s inner with hs₁
            have hne₁ : s₁.discardStack ≠ [] := fun hnil =>
              h (List.suffix_nil.mp (hnil ▸ hsfx₁))
            have hfa : s₁.inArticle = false :=
              inArticle_false_of_balanced hbi s (by simpa using hin)
            rw [step_end_unknown_noart s₁ n hcn hna hfa]
            obtain ⟨ho₂, hsfx₂⟩ := ihr s₁ hne₁
            exact ⟨ho₂.trans ho₁, hsfx₁.trans hsfx₂⟩

theorem extractLoop_eq_processTokens :
    ∀ (ts : List Token) (s : ExtractState), (∀ t ∈ ts, t.isErr = false) →
      extractLoop s ts = (processTokens s ts, none) := by
  intro ts
  induction ts with
  | nil =>
      intro s _
      rfl
  | cons t ts ih =>
      intro s h
      cases t with
      | errTok e =>
          have := h (.errTok e) (List.mem_cons_self _ _)
          simp [Token.isErr] at this
      | text x =>
          exact ih (step s (.text x)) (fun u hu => h u (List.mem_cons_of_mem _ hu))
      | startTag nm a =>
          exact ih (step s (.startTag nm a)) (fun u hu => h u (List.mem_cons_of_mem _ hu))
      | endTag nm =>
          exact ih (step s (.endTag nm)) (fun u hu => h u (List.mem_cons_of_mem _ hu))
      | selfClosingTag nm a =>
          exact ih (step s (.selfClosingTag nm a)) (fun u hu => h u (List.mem_cons_of_mem _ hu))

theorem cacheBump_length (c : Cache) (path : String) :
    (cacheBump c path).length = c.length := by
  induction c with
  | nil => rfl
  | cons e rest ih =>
      obtain ⟨k, p⟩ := e
      simp only [cacheBump]
      split <;> simp [ih]

theorem cacheBump_absent (c : Cache) (path : String) (h : cacheGet c path = none) :
    cacheBump c path = c := by
  induction c with
  | nil => rfl
  | cons e rest ih =>
      obtain ⟨k, p⟩ := e
      simp only [cacheGet] at h
      simp only [cacheBump]
      by_cases hk : k = path
      · rw [if_pos hk] at h
        exact absurd h (by simp)
      · rw [if_neg hk] at h
        rw [if_neg hk, ih h]

theorem cacheGet_bump (c : Cache) (path : String) :
    cacheGet (cacheBump c path) path =
      (cacheGet c path).map (fun p => { p with hits := p.hits + 1 }) := by
  induction c with
  | nil => rfl
  | cons e rest ih =>
      obtain ⟨k, p⟩ := e
      simp only [cacheBump, cacheGet]
      by_cases hk : k = path
      · rw [if_pos hk]
        simp only [cacheGet, if_pos hk]
        rfl
      · rw [if_neg hk]
        simp only [cacheGet, if_neg hk]
        exact ih

theorem serve_hit (c : Cache) (path : String) (p : Page)
    (f : Except String (Nat × List Token))
    (h2 : ¬ path.length < 2) (hget : cacheGet c path = some p) :
    serve c path f =
      (.ok p.code (p.hits + 1) c.length p.content, cacheBump c path) := by
  unfold serve
  rw [if_neg h2, hget]
  dsimp only
  rw [cacheBump_length]

theorem serve_miss (c : Cache) (path : String) (code : Nat) (toks : List Token)
    (h2 : ¬ path.length < 2) (habs : cacheGet c path = none) :
    serve c path (.ok (code, toks)) =
      (.ok code 1 ((if 200 < c.length then ([] : Cache) else c).length + 1)
         (preamble ++ (extract toks).1),
       (path, ⟨1, code, preamble ++ (extract toks).1⟩) ::
         (if 200 < c.length then ([] : Cache) else c)) := by
  have habs₁ : cacheGet (if 200 < c.length then ([] : Cache) else c) path = none := by
    split
    · rfl
    · exact habs
  unfold serve
  rw [if_neg h2, habs]
  simp only [cacheBump, cacheBump_absent _ _ habs₁]
  simp

theorem serveN_hit_run :
    ∀ (m : Nat) (c : Cache) (path : String) (p : Page)
      (f : Except String (Nat × List Token)),
      ¬ path.length < 2 → cacheGet c path = some p →
      (serveN m c path f).1 =
        (List.range m).map
          (fun i => ServeOutcome.ok p.code (p.hits + i + 1) c.length p.content) := by
  intro m
  induction m with
  | zero =>
      intro c path p f h2 hget
      rfl
  | succ m ih =>
      intro c path p f h2 hget
      simp only [serveN]
      rw [serve_hit c path p f h2 hget]
      dsimp only
      have hget₁ : cacheGet (cacheBump c path) path =
          some { p with hits := p.hits + 1 } := by
        rw [cacheGet_bump, hget]
        rfl
      rw [ih (cacheBump c path) path { p with hits := p.hits + 1 } f h2 hget₁,
        cacheBump_length]
      rw [List.range_succ_eq_map, List.map_cons, List.map_map]
      have harith : ∀ i : Nat, p.hits + 1 + i + 1 = p.hits + (i + 1) + 1 := by
        intro i
        omega
      simp only [Function.comp_def, harith, Nat.add_zero, Nat.succ_eq_add_one]

/-- C1: for every token stream that ends with normal end-of-stream (no
mid-stream failure), `extract` stops the pass and returns the accumulated
output bytes together with no error. -/
theorem extract_eos_no_error (ts : List Token) (h : ∀ t ∈ ts, t.isErr = false) :
    extract ts = ((processTokens initState ts).out, none) := by
  unfold extract
  rw [extractLoop_eq_processTokens ts initState h]

theorem extract_eos_no_error_witness :
    extract [Token.startTag "article" [], Token.text "x"] =
      ((processTokens initState [Token.startTag "article" [], Token.text "x"]).out, none) :=
  extract_eos_no_error [Token.startTag "article" [], Token.text "x"] (by decide)

/-- C2: on the exact token stream of
`<article><h1>Title</h1><script>alert(1)</script><p>Hi <b>there</b></p></article>`,
`extract` produces exactly `<h1 >\nTitle</h1>\n<p >\nHi </p>\n`: the
`<b>there</b>` subtree and the script content are fully dropped, and
attribute-less kept tags render with a trailing space before `>`. -/
theorem extract_example_output :
    extract
      [Token.startTag "article" [],
       Token.startTag "h1" [], Token.text "Title", Token.endTag "h1",
       Token.startTag "script" [], Token.text "alert(1)", Token.endTag "script",
       Token.startTag "p" [], Token.text "Hi ",
       Token.startTag "b" [], Token.text "there", Token.endTag "b",
       Token.endTag "p", Token.endTag "article"] =
    ("<h1 >\nTitle</h1>\n<p >\nHi </p>\n", none) := by decide

/-- C3: when a new unique path is served and the fetch succeeds, a cache
that is strictly larger than 200 at insertion time is wholly discarded and
the single new entry inserted (resulting size exactly 1), while a cache of
size at most 200 receives the new entry with no existing entry removed. -/
theorem serve_eviction_reset (c : Cache) (path : String) (code : Nat)
    (toks : List Token) (h2 : ¬ path.length < 2) (habs : cacheGet c path = none) :
    (200 < c.length →
        (serve c path (.ok (code, toks))).2 =
          [(path, ⟨1, code, preamble ++ (extract toks).1⟩)] ∧
        (serve c path (.ok (code, toks))).2.length = 1) ∧
    (c.length ≤ 200 →
        (serve c path (.ok (code, toks))).2 =
          (path, ⟨1, code, preamble ++ (extract toks).1⟩) :: c ∧
        (serve c path (.ok (code, toks))).2.length = c.length + 1) := by
  have hm := serve_miss c path code toks h2 habs
  constructor
  · intro hgt
    rw [hm]
    dsimp only
    rw [if_pos hgt]
    exact ⟨rfl, rfl⟩
  · intro hle
    have hngt : ¬ 200 < c.length := by omega
    rw [hm]
    dsimp only
    rw [if_neg hngt]
    exact ⟨rfl, rfl⟩

theorem serve_eviction_reset_witness :
    (200 < bigCache.length →
        (serve bigCache "/xy" (.ok (200, []))).2 =
          [("/xy", ⟨1, 200, preamble ++ (extract []).1⟩)] ∧
        (serve bigCache "/xy" (.ok (200, []))).2.length = 1) ∧
    (bigCache.length ≤ 200 →
        (serve bigCache "/xy" (.ok (200, []))).2 =
          ("/xy", ⟨1, 200, preamble ++ (extract []).1⟩) :: bigCache ∧
        (serve bigCache "/xy" (.ok (200, []))).2.length = bigCache.length + 1) :=
  serve_eviction_reset bigCache "/xy" 200 [] (by decide) (by decide)

/-- C4: an unknown (non-allow-listed, non-article) tag opened inside the
article with arbitrary well-formed descendants contributes nothing to the
output — the whole subtree, its matching close included, leaves the output
unchanged — and the discard stack is still non-empty just before the
matching close, so suppression lasts the entire subtree. -/
theorem extract_discards_unknown_subtree (s : ExtractState) (u : String)
    (attrs : List (String × String)) (F : List Token) (hb : BalancedStream F)
    (hu : u ∉ contentTags) (hua : u ≠ "article") (hin : s.inArticle = true) :
    (processTokens s (Token.startTag u attrs :: (F ++ [Token.endTag u]))).out = s.out ∧
    (processTokens s (Token.startTag u attrs :: F)).discardStack ≠ [] := by
  have hstart : step s (.startTag u attrs) =
      { s with discardStack := u :: s.discardStack } := by
    rw [step_start_unknown s u attrs hu hua, if_pos hin]
  obtain ⟨ho₁, hsfx₁⟩ :=
    processTokens_suppressed hb { s with discardStack := u :: s.discardStack }
      (List.cons_ne_nil _ _)
  have hne₁ :
      (processTokens { s with discardStack := u :: s.discardStack } F).discardStack ≠ [] :=
    fun hnil => List.cons_ne_nil u s.discardStack
      (List.suffix_nil.mp (hnil ▸ (hsfx₁ : u :: s.discardStack <:+ _)))
  constructor
  · rw [processTokens_cons, hstart, processTokens_append,
      show ∀ s₂ : ExtractState,
          processTokens s₂ [Token.endTag u] = step s₂ (Token.endTag u) from fun _ => rfl,
      step_out_stuck _ _ hne₁]
    exact (ho₁ : _ = s.out)
  · rw [processTokens_cons, hstart]
    exact hne₁

theorem extract_discards_unknown_subtree_witness :
    (processTokens ⟨true, [], ""⟩
      (Token.startTag "nav" [] ::
        ([Token.startTag "p" [], Token.text "x", Token.endTag "p"] ++
          [Token.endTag "nav"]))).out = "" :=
  (extract_discards_unknown_subtree ⟨true, [], ""⟩ "nav" []
    [Token.startTag "p" [], Token.text "x", Token.endTag "p"]
    (BalancedStream.elem "p" [] (BalancedStream.text "x" BalancedStream.nil)
      BalancedStream.nil)
    (by decide) (by decide) rfl).1

/-- C5: an end tag that is neither allow-listed nor `article`, arriving
inside the article, causes no state change when the discard stack is empty,
and causes no pop (no state change at all) when the stack top differs from
its name — so any balanced continuation stays suppressed — and in both
cases the token loop simply continues with the next token. -/
theorem extract_end_mismatch_no_pop (s : ExtractState) (t : String)
    (hin : s.inArticle = true) (hc : t ∉ contentTags) (ha : t ≠ "article") :
    (s.discardStack = [] →
        step s (.endTag t) = s ∧
        ∀ ts, extractLoop s (Token.endTag t :: ts) = extractLoop s ts) ∧
    (∀ top rest₀, s.discardStack = top :: rest₀ → top ≠ t →
        step s (.endTag t) = s ∧
        (∀ ts, extractLoop s (Token.endTag t :: ts) = extractLoop s ts) ∧
        ∀ F, BalancedStream F →
          (processTokens s (Token.endTag t :: F)).out = s.out) := by
  constructor
  · intro hnil
    have he := step_end_unknown_empty s t hc ha hin hnil
    refine ⟨he, fun ts => ?_⟩
    show extractLoop (step s (.endTag t)) ts = _
    rw [he]
  · intro top rest₀ hcons hne
    have he := step_end_unknown_skip s t hc ha hin top rest₀ hcons hne
    refine ⟨he, fun ts => ?_, ?_⟩
    · show extractLoop (step s (.endTag t)) ts = _
      rw [he]
    · intro F hbF
      rw [processTokens_cons, he]
      exact (processTokens_suppressed hbF s
        (by rw [hcons]; exact List.cons_ne_nil _ _)).1

theorem extract_end_mismatch_no_pop_witness :
    step ⟨true, ["span"], "o"⟩ (.endTag "aside") = ⟨true, ["span"], "o"⟩ :=
  ((extract_end_mismatch_no_pop ⟨true, ["span"], "o"⟩ "aside" rfl (by decide)
    (by decide)).2 "span" [] rfl (by decide)).1

/-- C6: serving a fresh path n consecutive times (first serve inserts the
entry) yields hit counters 1, 2, …, n — the counter is incremented on every
serve, including the very first — and a reported cache size that is the
same constant across all n serves. -/
theorem serve_hit_counters (n : Nat) (c : Cache) (path : String) (code : Nat)
    (toks : List Token) (h2 : ¬ path.length < 2) (habs : cacheGet c path = none) :
    (serveN n c path (.ok (code, toks))).1 =
      (List.range n).map (fun i =>
        ServeOutcome.ok code (i + 1)
          ((if 200 < c.length then ([] : Cache) else c).length + 1)
          (preamble ++ (extract toks).1)) := by
  cases n with
  | zero => rfl
  | succ m =>
      simp only [serveN]
      rw [serve_miss c path code toks h2 habs]
      dsimp only
      have hget₁ : cacheGet
          ((path, ⟨1, code, preamble ++ (extract toks).1⟩) ::
            (if 200 < c.length then ([] : Cache) else c)) path =
          some ⟨1, code, preamble ++ (extract toks).1⟩ := by
        simp [cacheGet]
      rw [serveN_hit_run m _ path _ _ h2 hget₁]
      rw [List.range_succ_eq_map, List.map_cons, List.map_map]
      have harith : ∀ i : Nat, 1 + i + 1 = (i + 1) + 1 := by
        intro i
        omega
      simp only [Function.comp_def, harith, Nat.add_zero, Nat.succ_eq_add_one,
        List.length_cons]

theorem serve_hit_counters_witness :
    (serveN 3 [] "/ab" (.ok (200, []))).1 =
      (List.range 3).map (fun i =>
        ServeOutcome.ok 200 (i + 1)
          ((if 200 < ([] : Cache).length then ([] : Cache) else []).length + 1)
          (preamble ++ (extract []).1)) :=
  serve_hit_counters 3 [] "/ab" 200 [] (by decide) rfl

/-- C7: a request for a path absent from the cache whose fetch fails is
answered with a server-error response (status 500) carrying the failure's
description, and the cache is left completely unchanged. -/
theorem serve_fetch_error_no_mutation (c : Cache) (path e : String)
    (h2 : ¬ path.length < 2) (habs : cacheGet c path = none) :
    serve c path (.error e) = (.fetchError 500 e, c) := by
  unfold serve
  rw [if_neg h2, habs]

theorem serve_fetch_error_no_mutation_witness :
    serve [] "/ab" (.error "boom") = (.fetchError 500 "boom", []) :=
  serve_fetch_error_no_mutation [] "/ab" "boom" (by decide) rfl

/-- C8: when the fetch succeeds but the token stream fails mid-parse, the
partial output extracted so far is wrapped with the fixed preamble, cached,
and served with the original fetch's status code; the extraction error is
not part of the response. -/
theorem serve_partial_extract_cached (c : Cache) (path : String) (code : Nat)
    (toks : List Token) (emsg : String) (h2 : ¬ path.length < 2)
    (habs : cacheGet c path = none) (herr : (extract toks).2 = some emsg) :
    (serve c path (.ok (code, toks))).1 =
      ServeOutcome.ok code 1
        ((if 200 < c.length then ([] : Cache) else c).length + 1)
        (preamble ++ (extract toks).1) ∧
    cacheGet (serve c path (.ok (code, toks))).2 path =
      some ⟨1, code, preamble ++ (extract toks).1⟩ := by
  rw [serve_miss c path code toks h2 habs]
  dsimp only
  exact ⟨rfl, by simp [cacheGet]⟩

theorem serve_partial_extract_cached_witness :
    (serve [] "/ab" (.ok (404, [Token.errTok "unexpected EOF"]))).1 =
      ServeOutcome.ok 404 1
        ((if 200 < ([] : Cache).length then ([] : Cache) else []).length + 1)
        (preamble ++ (extract [Token.errTok "unexpected EOF"]).1) ∧
    cacheGet (serve [] "/ab" (.ok (404, [Token.errTok "unexpected EOF"]))).2 "/ab" =
      some ⟨1, 404, preamble ++ (extract [Token.errTok "unexpected EOF"]).1⟩ :=
  serve_partial_extract_cached [] "/ab" 404 [Token.errTok "unexpected EOF"]
    "unexpected EOF" (by decide) rfl rfl

/-- C9: a plain (non-self-closing) start tag named `br` or `img` inside the
article is not handled by the void-tag rule: it is pushed onto the discard
stack and emits nothing; only self-closing `br`/`img` tokens are emitted
(when the stack is empty). -/
theorem start_br_img_pushes_discard (s : ExtractState)
    (attrs : List (String × String)) (hin : s.inArticle = true) :
    step s (.startTag "br" attrs) = { s with discardStack := "br" :: s.discardStack } ∧
    step s (.startTag "img" attrs) = { s with discardStack := "img" :: s.discardStack } ∧
    (s.discardStack = [] →
      step s (.selfClosingTag "br" attrs) =
        { s with out := s.out ++ "<" ++ "br" ++ " " ++ renderAttrs attrs ++ ">\n" } ∧
      step s (.selfClosingTag "img" attrs) =
        { s with out := s.out ++ "<" ++ "img" ++ " " ++ renderAttrs attrs ++ ">\n" }) := by
  refine ⟨?_, ?_, ?_⟩
  · rw [step_start_unknown s "br" attrs (by decide) (by decide), if_pos hin]
  · rw [step_start_unknown s "img" attrs (by decide) (by decide), if_pos hin]
  · intro hnil
    constructor
    · simp only [step]
      rw [if_pos (Or.inl trivial), if_pos ⟨hin, hnil⟩]
    · simp only [step]
      rw [if_pos (Or.inr trivial), if_pos ⟨hin, hnil⟩]

theorem start_br_img_pushes_discard_witness :
    step ⟨true, [], ""⟩ (.startTag "br" [("href", "x")]) = ⟨true, ["br"], ""⟩ :=
  (start_br_img_pushes_discard ⟨true, [], ""⟩ [("href", "x")] rfl).1

/-- C10: kept attribute pairs are concatenated with no separator between
them, and every emitted start or self-closing tag has exactly one space
between the tag name and the attribute bytes, regardless of how many
attributes are kept. -/
theorem attrs_concatenated_no_separator (s : ExtractState)
    (t k₁ v₁ k₂ v₂ : String) (ht : t ∈ contentTags)
    (hk₁ : k₁ ∈ allowedTags) (hk₂ : k₂ ∈ allowedTags)
    (hin : s.inArticle = true) (hnil : s.discardStack = []) :
    renderAttrs [(k₁, v₁), (k₂, v₂)] =
      k₁ ++ "=\"" ++ v₁ ++ "\"" ++ (k₂ ++ "=\"" ++ v₂ ++ "\"") ∧
    (∀ attrs, step s (.startTag t attrs) =
      { s with out := s.out ++ "<" ++ t ++ " " ++ renderAttrs attrs ++ ">\n" }) ∧
    (∀ attrs, step s (.selfClosingTag "br" attrs) =
      { s with out := s.out ++ "<" ++ "br" ++ " " ++ renderAttrs attrs ++ ">\n" }) := by
  refine ⟨?_, ?_, ?_⟩
  · simp only [renderAttrs, if_pos hk₁, if_pos hk₂, String.append_empty]
  · intro attrs
    simp only [step]
    rw [if_neg (contentTags_ne_article ht), if_pos ht, if_pos ⟨hin, hnil⟩]
  · intro attrs
    simp only [step]
    rw [if_pos (Or.inl trivial), if_pos ⟨hin, hnil⟩]

theorem attrs_concatenated_no_separator_witness :
    renderAttrs [("src", "a"), ("href", "b")] = "src=\"a\"href=\"b\"" := by
  rw [(attrs_concatenated_no_separator ⟨true, [], ""⟩ "p" "src" "a" "href" "b"
    (by decide) (by decide) (by decide) rfl rfl).1]
  decide
